import Mathlib

/- Shallow embedding of the formatting/compositing core of i3status-rust
   (src/util.rs and src/config.rs), together with theorems settling the
   specification's claims about it.

   Modelling conventions:
   - Rust `&str` values are embedded as `String` / `List Char`; byte indices
     in `str::get` become character indices (all inputs of interest are ASCII).
   - Fallible Rust code (`Result`, `Option`) is embedded with `Option` /
     `Except String`; a `panic!`/`unwrap` failure is embedded as `none` or an
     `Except.error`.
   - `u8` arithmetic is embedded as `Nat` with explicit saturation.
-/

/-! ## Color model (src/util.rs: color_from_rgba, color_to_rgba, add_colors) -/

/-- One hexadecimal digit, as accepted by `u8::from_str_radix(_, 16)`:
`0-9`, `a-f`, `A-F`. -/
def hexDigitVal (c : Char) : Option Nat :=
  if '0' ≤ c ∧ c ≤ '9' then some (c.toNat - '0'.toNat)
  else if 'a' ≤ c ∧ c ≤ 'f' then some (c.toNat - 'a'.toNat + 10)
  else if 'A' ≤ c ∧ c ≤ 'F' then some (c.toNat - 'A'.toNat + 10)
  else none

/-- Accumulate hexadecimal digits left to right (the value grows by a factor
of 16 per digit); `none` as soon as a non-digit is hit. -/
def hexAccum : List Char → Nat → Option Nat
  | [], acc => some acc
  | c :: rest, acc =>
    match hexDigitVal c with
    | some d => hexAccum rest (acc * 16 + d)
    | none => none

/-- Embedding of `u8::from_str_radix(s, 16)`: an optional leading `+` sign
(a `-` sign is rejected outright for unsigned integer types, like any other
non-digit), then one or more hex digits, value within `0..=255` (a checked
accumulation errs as soon as the value exceeds `u8`; for a result `≤ 255`
that is equivalent to checking the final value). -/
def parseU8Hex (cs : List Char) : Option Nat :=
  let digits :=
    match cs with
    | '+' :: rest => rest
    | _ => cs
  if digits = [] then none
  else
    match hexAccum digits 0 with
    | some v => if v ≤ 255 then some v else none
    | none => none

/-- Embedding of `str::get(a..b)`: the slice, or `none` when the range is out
of bounds. -/
def strGet (s : List Char) (a b : Nat) : Option (List Char) :=
  if a ≤ b ∧ b ≤ s.length then some ((s.drop a).take (b - a)) else none

/-- Embedding of `color_from_rgba` (src/util.rs:277-286): parse the three hex
byte slices at character positions 1-2, 3-4, 5-6, and the alpha slice at 7-8,
the latter defaulting to `"FF"` when the string is too short. -/
def color_from_rgba (s : List Char) : Option (Nat × Nat × Nat × Nat) := do
  let r ← (strGet s 1 3).bind parseU8Hex
  let g ← (strGet s 3 5).bind parseU8Hex
  let b ← (strGet s 5 7).bind parseU8Hex
  let a ← parseU8Hex ((strGet s 7 9).getD ['F', 'F'])
  pure (r, g, b, a)

/-- The sixteen uppercase hexadecimal digit characters used by `{:02X}`. -/
def hexDigitChar (n : Nat) : Char :=
  "0123456789ABCDEF".data.getD n '0'

/-- A `u8` printed as exactly two uppercase hex digits (`{:02X}`). -/
def hexPair (n : Nat) : List Char :=
  [hexDigitChar (n / 16 % 16), hexDigitChar (n % 16)]

/-- Embedding of `color_to_rgba` (src/util.rs:288-293):
`format!("#{:02X}{:02X}{:02X}{:02X}", ...)`. -/
def color_to_rgba (c : Nat × Nat × Nat × Nat) : String :=
  String.mk ('#' :: (hexPair c.1 ++ hexPair c.2.1 ++ hexPair c.2.2.1 ++ hexPair c.2.2.2))

/-- Channel-wise `u8::saturating_add`. -/
def satAdd4 (x y : Nat × Nat × Nat × Nat) : Nat × Nat × Nat × Nat :=
  (min 255 (x.1 + y.1), min 255 (x.2.1 + y.2.1),
   min 255 (x.2.2.1 + y.2.2.1), min 255 (x.2.2.2 + y.2.2.2))

/-- Embedding of `add_colors` (src/util.rs:296-315). The outer `Option` is
the `Result` (`none` = parse error), the inner one the optional color. -/
def add_colors (a b : Option String) : Option (Option String) :=
  match a, b with
  | none, _ => some none
  | some a, none => some (some a)
  | some a, some b => do
    let ca ← color_from_rgba a.data
    let cb ← color_from_rgba b.data
    pure (some (color_to_rgba (satAdd4 ca cb)))

/-- `true` iff `c` is a digit or an uppercase hex letter. -/
def isUpHexDigit (c : Char) : Bool :=
  ('0' ≤ c && c ≤ '9') || ('A' ≤ c && c ≤ 'F')

/-- Shape of a serialized color: `#` followed by 8 uppercase hex digits. -/
def isUpperRgbaForm (s : String) : Bool :=
  match s.data with
  | '#' :: rest => rest.length = 8 && rest.all isUpHexDigit
  | _ => false

/-! ## Color model lemmas and claims C2, C5 -/

theorem upHex_hexDigitChar : ∀ k : Nat, k < 16 → isUpHexDigit (hexDigitChar k) = true := by
  intro k hk
  interval_cases k <;> decide

theorem isUpperRgbaForm_color_to_rgba (c : Nat × Nat × Nat × Nat) :
    isUpperRgbaForm (color_to_rgba c) = true := by
  have h16 : ∀ n : Nat, n % 16 < 16 := fun n => Nat.mod_lt _ (by norm_num)
  simp [color_to_rgba, isUpperRgbaForm, hexPair, List.all,
    upHex_hexDigitChar _ (h16 _)]

/-- C2 counterexample: `color_from_rgba` never inspects the first character,
so `"0AABBCC"` - which is not `#` followed by 6 or 8 hex digits - parses
successfully; the claim says every such input must fail. -/
theorem color_from_rgba_no_hash_check :
    color_from_rgba "0AABBCC".data = some (170, 187, 204, 255) := by decide

/-- C2 (amended): parsing succeeds iff the three 2-character slices at
positions 1-6 and the alpha slice at positions 7-8 (defaulting to `"FF"` when
absent) all parse as `u8` hex; the first character and any characters past
position 8 are never examined; alpha defaults to `0xFF` when only 6 hex
digits follow; the spec's four concrete examples hold as stated. -/
theorem color_from_rgba_spec :
    (∀ s : List Char,
      (color_from_rgba s).isSome ↔
        (((strGet s 1 3).bind parseU8Hex).isSome ∧
         ((strGet s 3 5).bind parseU8Hex).isSome ∧
         ((strGet s 5 7).bind parseU8Hex).isSome ∧
         (parseU8Hex ((strGet s 7 9).getD ['F', 'F'])).isSome)) ∧
    (∀ (c1 c2 : Char) (rest : List Char),
      color_from_rgba (c1 :: rest) = color_from_rgba (c2 :: rest)) ∧
    color_from_rgba "#AABBCC".data = some (170, 187, 204, 255) ∧
    color_from_rgba "#AABBCC00".data = some (170, 187, 204, 0) ∧
    color_from_rgba "AABBCC".data = none ∧
    color_from_rgba "AA".data = none := by
  refine ⟨fun s => ?_, fun c1 c2 rest => ?_, by decide, by decide, by decide, by decide⟩
  · cases h1 : (strGet s 1 3).bind parseU8Hex <;>
    cases h2 : (strGet s 3 5).bind parseU8Hex <;>
    cases h3 : (strGet s 5 7).bind parseU8Hex <;>
    cases h4 : parseU8Hex ((strGet s 7 9).getD ['F', 'F']) <;>
    simp [color_from_rgba, h1, h2, h3, h4]
  · have e : ∀ (c : Char) (a b : Nat), strGet (c :: rest) (a + 1) (b + 1) = strGet rest a b := by
      intro c a b
      simp [strGet, Nat.succ_le_succ_iff]
    simp only [color_from_rgba]
    rw [show (1 : Nat) = 0 + 1 from rfl, show (3 : Nat) = 2 + 1 from rfl,
        show (5 : Nat) = 4 + 1 from rfl, show (7 : Nat) = 6 + 1 from rfl,
        show (9 : Nat) = 8 + 1 from rfl, e c1, e c1, e c1, e c1, e c2, e c2, e c2, e c2]

/-- C2 witness: the amended characterization applied at `"#AABBCC"`. -/
theorem color_from_rgba_spec_witness :
    (color_from_rgba "#AABBCC".data).isSome = true := by
  have h := (color_from_rgba_spec.1 "#AABBCC".data).mpr
    ⟨by decide, by decide, by decide, by decide⟩
  exact h

/-- C5: `add_colors` maps `(none, _)` to `none`, keeps `(some a, none)`
unchanged, and for two parseable colors adds channel-wise with saturation at
255 and serializes the sum as uppercase `#RRGGBBAA`. -/
theorem add_colors_spec :
    ∀ (a b : String) (ca cb : Nat × Nat × Nat × Nat),
      add_colors none (some b) = some none ∧
      add_colors none none = some none ∧
      add_colors (some a) none = some (some a) ∧
      (color_from_rgba a.data = some ca → color_from_rgba b.data = some cb →
        add_colors (some a) (some b) = some (some (color_to_rgba (satAdd4 ca cb))) ∧
        (satAdd4 ca cb).1 ≤ 255 ∧ (satAdd4 ca cb).2.1 ≤ 255 ∧
        (satAdd4 ca cb).2.2.1 ≤ 255 ∧ (satAdd4 ca cb).2.2.2 ≤ 255 ∧
        isUpperRgbaForm (color_to_rgba (satAdd4 ca cb)) = true) := by
  intro a b ca cb
  refine ⟨rfl, rfl, rfl, fun h1 h2 => ⟨?_, ?_, ?_, ?_, ?_, isUpperRgbaForm_color_to_rgba _⟩⟩
  · simp [add_colors, h1, h2]
  all_goals exact Nat.min_le_left _ _

/-- C5 witness: the spec's example, `#000000FF + #101010FF = #101010FF`. -/
theorem add_colors_spec_witness :
    add_colors (some "#000000FF") (some "#101010FF") = some (some "#101010FF") := by
  have h := (add_colors_spec "#000000FF" "#101010FF" (0, 0, 0, 255) (16, 16, 16, 255)).2.2.2
    (by decide) (by decide)
  exact h.1.trans (by decide)

/-! ## FormatTemplate (src/util.rs: FormatTemplate::from_string, render_static_str) -/

/-- A token of a compiled format template (src/util.rs:385-389). -/
inductive FormatToken
  | text (s : String)
  | var (s : String)
  deriving DecidableEq

/-- A compiled format template (src/util.rs:380-383). -/
structure FormatTemplate where
  tokens : List FormatToken
  deriving DecidableEq

/-- A character matched by the regex class `[a-zA-Z0-9_-]`. -/
def isVarChar (c : Char) : Bool :=
  c.isAlphanum || c = '_' || c = '-'

/-- The regex `\x7b[a-zA-Z0-9_-]+?\x7d` tried at the character right after a
`{`: it matches iff one or more class characters follow, terminated by `}`
(the class excludes `}`, so the lazy quantifier stops at the first
non-class character, which must be `}`); returns the placeholder name and
the rest of the input after the `}`. -/
def takeVarName (cs : List Char) : Option (List Char × List Char) :=
  let name := cs.takeWhile isVarChar
  match cs.drop name.length with
  | '}' :: rest => if name.isEmpty then none else some (name, rest)
  | _ => none

/-- The scan of `Regex::find_iter` in `FormatTemplate::from_string`
(src/util.rs:392-408): left to right, non-overlapping; a literal-text token
is pushed only for a non-empty gap immediately preceding a match (`pending`
holds the current gap, reversed); text after the last match is never pushed.
`fuel` only bounds the recursion depth; the wrapper supplies enough for the
whole input. -/
def tokenizeGo : Nat → List Char → List Char → List FormatToken
  | 0, _, _ => []
  | _ + 1, _, [] => []
  | fuel + 1, pending, c :: rest =>
    if c = '{' then
      match takeVarName rest with
      | some (name, rest2) =>
        let varTok := FormatToken.var (String.mk ('{' :: (name ++ ['}'])))
        if pending.isEmpty then varTok :: tokenizeGo fuel [] rest2
        else FormatToken.text (String.mk pending.reverse) :: varTok :: tokenizeGo fuel [] rest2
      | none => tokenizeGo fuel (c :: pending) rest
    else tokenizeGo fuel (c :: pending) rest

/-- Embedding of `FormatTemplate::from_string` (src/util.rs:392-408). The
regex literal always compiles, so the `Result` is always `Ok`. -/
def from_string (s : String) : Except String FormatTemplate :=
  Except.ok ⟨tokenizeGo (s.data.length + 1) [] s.data⟩

/-- First-match lookup in the variable map (`HashMap::get`; the map is
embedded as an association list). -/
def lookupVar : List (String × String) → String → Option String
  | [], _ => none
  | (k, v) :: rest, key => if k = key then some v else lookupVar rest key

/-- Embedding of `FormatTemplate::render_static_str` (src/util.rs:410-427):
concatenate tokens in order; a placeholder with no entry in `vars` fails
with the error naming it. -/
def renderTokens : List FormatToken → List (String × String) → Except String String
  | [], _ => Except.ok ""
  | FormatToken.text s :: rest, vars =>
    (renderTokens rest vars).map (fun r => s ++ r)
  | FormatToken.var key :: rest, vars =>
    match lookupVar vars key with
    | some v => (renderTokens rest vars).map (fun r => v ++ r)
    | none => Except.error ("Unknown placeholder in format string: " ++ key)

/-- Embedding of `render_static_str` at the template level. -/
def render_static_str (t : FormatTemplate) (vars : List (String × String)) :
    Except String String :=
  renderTokens t.tokens vars

/-- The structural invariant of compiled templates: every literal-text token
is immediately followed by a placeholder token (in particular no template
ends in a literal-text token). -/
def textPrecedesVar : List FormatToken → Bool
  | [] => true
  | FormatToken.var _ :: rest => textPrecedesVar rest
  | FormatToken.text _ :: FormatToken.var _ :: rest => textPrecedesVar rest
  | _ => false

/-- `true` iff the token is a placeholder token. -/
def isVarTok : FormatToken → Bool
  | FormatToken.var _ => true
  | FormatToken.text _ => false

/-! ## FormatTemplate lemmas and claims C3, C10 -/

theorem tokenizeGo_shape : ∀ (fuel : Nat) (pending cs : List Char),
    textPrecedesVar (tokenizeGo fuel pending cs) = true := by
  intro fuel
  induction fuel with
  | zero => intro pending cs; rfl
  | succ n ih =>
    intro pending cs
    cases cs with
    | nil => rfl
    | cons c rest =>
      by_cases hc : c = '{'
      · cases htv : takeVarName rest with
        | none => simpa [tokenizeGo, hc, htv] using ih (c :: pending) rest
        | some p =>
          obtain ⟨name, rest2⟩ := p
          by_cases hp : pending.isEmpty
          · simp [tokenizeGo, hc, htv, hp, textPrecedesVar, ih]
          · simp [tokenizeGo, hc, htv, hp, textPrecedesVar, ih]
      · simpa [tokenizeGo, hc] using ih (c :: pending) rest

theorem textPrecedesVar_noVar_nil : ∀ l : List FormatToken,
    textPrecedesVar l = true → (∀ t ∈ l, isVarTok t = false) → l = []
  | [], _, _ => rfl
  | FormatToken.var s :: rest, _, hv => by
    have := hv (FormatToken.var s) (by simp)
    simp [isVarTok] at this
  | FormatToken.text s :: FormatToken.var v :: rest, _, hv => by
    have := hv (FormatToken.var v) (by simp)
    simp [isVarTok] at this
  | [FormatToken.text s], h, _ => by simp [textPrecedesVar] at h
  | FormatToken.text s :: FormatToken.text s2 :: rest, h, _ => by
    simp [textPrecedesVar] at h

theorem tokenizeGo_no_brace : ∀ (fuel : Nat) (pending cs : List Char),
    '{' ∉ cs → tokenizeGo fuel pending cs = [] := by
  intro fuel
  induction fuel with
  | zero => intro pending cs _; rfl
  | succ n ih =>
    intro pending cs hmem
    cases cs with
    | nil => rfl
    | cons c rest =>
      have hc : ¬(c = '{') := fun h => hmem (h ▸ List.mem_cons_self c rest)
      have hrest : '{' ∉ rest := fun h => hmem (List.mem_cons_of_mem c h)
      simpa [tokenizeGo, hc] using ih (c :: pending) rest hrest

/-- C3: compiling `"{a} and {b}"` and rendering with the mapping that binds
placeholder `a` to `"x"` and `b` to `"y"` (the code keys the variable map by
the matched placeholder text, so the entries are `"{a}"` and `"{b}"`) yields
`"x and y"`; rendering with no entry for `b` fails with the error naming the
offending key `{b}`. -/
theorem format_template_example :
    from_string "{a} and {b}" =
      Except.ok ⟨[FormatToken.var "{a}", FormatToken.text " and ", FormatToken.var "{b}"]⟩ ∧
    (from_string "{a} and {b}").bind
      (fun t => render_static_str t [("{a}", "x"), ("{b}", "y")]) = Except.ok "x and y" ∧
    (from_string "{a} and {b}").bind
      (fun t => render_static_str t [("{a}", "x")]) =
      Except.error ("Unknown placeholder in format string: " ++ "{b}") :=
  ⟨rfl, rfl, rfl⟩

/-- C10: a compiled template has literal-text tokens only immediately before
a placeholder token, never after the last one; so a template with no
placeholder match compiles to zero tokens and renders to `""` under every
variable mapping; in particular every brace-free template does. -/
theorem from_string_drops_trailing (s : String) (tpl : FormatTemplate)
    (h : from_string s = Except.ok tpl) :
    textPrecedesVar tpl.tokens = true ∧
    ((∀ t ∈ tpl.tokens, isVarTok t = false) → tpl.tokens = [] ∧
      ∀ vars, render_static_str tpl vars = Except.ok "") ∧
    ('{' ∉ s.data → tpl.tokens = [] ∧
      ∀ vars, render_static_str tpl vars = Except.ok "") := by
  have htpl : tpl = ⟨tokenizeGo (s.data.length + 1) [] s.data⟩ := by
    have := h
    unfold from_string at this
    cases this
    rfl
  subst htpl
  refine ⟨tokenizeGo_shape _ _ _, fun hnv => ?_, fun hbf => ?_⟩
  · have hnil := textPrecedesVar_noVar_nil _ (tokenizeGo_shape _ _ _) hnv
    refine ⟨hnil, fun vars => ?_⟩
    simp only [render_static_str, hnil]
    rfl
  · have hnil := tokenizeGo_no_brace (s.data.length + 1) [] s.data hbf
    refine ⟨hnil, fun vars => ?_⟩
    simp only [render_static_str, hnil]
    rfl

/-- C10 witness: the brace-free template `"abc"` compiles to zero tokens and
renders to the empty string. -/
theorem from_string_drops_trailing_witness :
    (⟨[]⟩ : FormatTemplate).tokens = [] ∧
    render_static_str ⟨[]⟩ [("{a}", "x")] = Except.ok "" := by
  have h := (from_string_drops_trailing "abc" ⟨[]⟩ rfl).2.2 (by decide)
  exact ⟨h.1, h.2 _⟩

/-! ## Theme, SharedConfig and theme_override (src/config.rs) -/

/-- Modelled from the spec: the `Theme` record (defined in the repository's
`themes.rs`, which is not under `src/`); §3 of the spec: optional override
strings for five semantic roles × fg/bg, a separator glyph, separator
foreground/background (literal color or the sentinel `"auto"`), an
alternating-tint background color, and a native-separator flag. The field
set and types agree with every use in src/config.rs and src/util.rs. -/
structure Theme where
  idle_fg : Option String := none
  idle_bg : Option String := none
  info_fg : Option String := none
  info_bg : Option String := none
  good_fg : Option String := none
  good_bg : Option String := none
  warning_fg : Option String := none
  warning_bg : Option String := none
  critical_fg : Option String := none
  critical_bg : Option String := none
  separator : String := ""
  separator_fg : Option String := none
  separator_bg : Option String := none
  alternating_tint_bg : Option String := none
  native_separators : Option Bool := none
  deriving DecidableEq

/-- Embedding of `SharedConfig` (src/config.rs:17-22), restricted to the
`theme` handle; the icon map and scrolling policy are carried by no claim.
The `Rc` copy-on-write handle is embedded as a plain value (state passing). -/
structure SharedConfig where
  theme : Theme
  deriving DecidableEq

/-- One arm of the `match` in `theme_override` (src/config.rs:41-58): set
the named field, or `none` for a key outside the allow-list. -/
def applyOverride (th : Theme) (k v : String) : Option Theme :=
  if k = "idle_fg" then some { th with idle_fg := some v }
  else if k = "idle_bg" then some { th with idle_bg := some v }
  else if k = "info_fg" then some { th with info_fg := some v }
  else if k = "info_bg" then some { th with info_bg := some v }
  else if k = "good_fg" then some { th with good_fg := some v }
  else if k = "good_bg" then some { th with good_bg := some v }
  else if k = "warning_fg" then some { th with warning_fg := some v }
  else if k = "warning_bg" then some { th with warning_bg := some v }
  else if k = "critical_fg" then some { th with critical_fg := some v }
  else if k = "critical_bg" then some { th with critical_bg := some v }
  else none

/-- The loop of `theme_override` (src/config.rs:40-59): apply entries in
iteration order, returning the configuration error naming the first key
that cannot be overridden. -/
def themeOverrideGo (th : Theme) : List (String × String) → Except String Theme
  | [] => Except.ok th
  | (k, v) :: rest =>
    match applyOverride th k v with
    | some th2 => themeOverrideGo th2 rest
    | none => Except.error ("Theme element \"" ++ k ++ "\" cannot be overriden")

/-- Embedding of `SharedConfig::theme_override` (src/config.rs:38-62): on
success the shared handle is rebound to the new owned theme. -/
def theme_override (cfg : SharedConfig) (overrides : List (String × String)) :
    Except String SharedConfig :=
  (themeOverrideGo cfg.theme overrides).map (fun th => { cfg with theme := th })

/-- The ten keys accepted by `theme_override`. -/
def allowedKeys : List String :=
  ["idle_fg", "idle_bg", "info_fg", "info_bg", "good_fg", "good_bg",
   "warning_fg", "warning_bg", "critical_fg", "critical_bg"]

/-- Projection of the theme field named by an allow-listed key. -/
def themeGet (th : Theme) (k : String) : Option String :=
  if k = "idle_fg" then th.idle_fg
  else if k = "idle_bg" then th.idle_bg
  else if k = "info_fg" then th.info_fg
  else if k = "info_bg" then th.info_bg
  else if k = "good_fg" then th.good_fg
  else if k = "good_bg" then th.good_bg
  else if k = "warning_fg" then th.warning_fg
  else if k = "warning_bg" then th.warning_bg
  else if k = "critical_fg" then th.critical_fg
  else if k = "critical_bg" then th.critical_bg
  else none

/-! ## theme_override lemmas and claim C8 -/

set_option maxHeartbeats 1000000 in
theorem applyOverride_isSome (th : Theme) (k v : String) :
    (applyOverride th k v).isSome = true ↔ k ∈ allowedKeys := by
  unfold applyOverride
  split_ifs with h1 h2 h3 h4 h5 h6 h7 h8 h9 h10 <;>
    simp only [Option.isSome_some, Option.isSome_none, allowedKeys,
      List.mem_cons, List.not_mem_nil, or_false] <;>
    simp_all

set_option maxHeartbeats 1000000 in
theorem applyOverride_themeGet (th th2 : Theme) (k v : String)
    (h : applyOverride th k v = some th2) : themeGet th2 k = some v := by
  unfold applyOverride at h
  split_ifs at h with h1 h2 h3 h4 h5 h6 h7 h8 h9 h10 <;>
    (cases h; simp only [themeGet]; simp_all)

theorem themeOverrideGo_ok_iff : ∀ (ov : List (String × String)) (th : Theme),
    (∃ th2, themeOverrideGo th ov = Except.ok th2) ↔ ∀ p ∈ ov, p.1 ∈ allowedKeys := by
  intro ov
  induction ov with
  | nil => intro th; simp [themeOverrideGo]
  | cons p rest ih =>
    intro th
    obtain ⟨k, v⟩ := p
    cases hap : applyOverride th k v with
    | none =>
      have hk : k ∉ allowedKeys := by
        rw [← applyOverride_isSome th k v, hap]
        simp
      simp [themeOverrideGo, hap, hk]
    | some th2 =>
      have hk : k ∈ allowedKeys := (applyOverride_isSome th k v).mp (by rw [hap]; rfl)
      simp [themeOverrideGo, hap, ih th2, hk]

theorem themeOverrideGo_err : ∀ (ov : List (String × String)) (th : Theme) (e : String),
    themeOverrideGo th ov = Except.error e →
    ∃ p ∈ ov, p.1 ∉ allowedKeys ∧
      e = "Theme element \"" ++ p.1 ++ "\" cannot be overriden" := by
  intro ov
  induction ov with
  | nil => intro th e h; cases h
  | cons p rest ih =>
    intro th e h
    obtain ⟨k, v⟩ := p
    cases hap : applyOverride th k v with
    | none =>
      have hk : k ∉ allowedKeys := by
        rw [← applyOverride_isSome th k v, hap]
        simp
      rw [themeOverrideGo, hap] at h
      cases h
      exact ⟨(k, v), List.mem_cons_self _ _, hk, rfl⟩
    | some th2 =>
      rw [themeOverrideGo, hap] at h
      obtain ⟨q, hq, hq2⟩ := ih th2 e h
      exact ⟨q, List.mem_cons_of_mem _ hq, hq2⟩

/-- C8: `theme_override` succeeds iff every override key is in the 10-key
allow-list; an unaccepted key yields the configuration error naming that
key; each accepted key sets the named theme field to the given value. -/
theorem theme_override_allow_list :
    ∀ (cfg : SharedConfig) (ov : List (String × String)),
      ((∃ cfg2, theme_override cfg ov = Except.ok cfg2) ↔ ∀ p ∈ ov, p.1 ∈ allowedKeys) ∧
      (∀ e, theme_override cfg ov = Except.error e →
        ∃ p ∈ ov, p.1 ∉ allowedKeys ∧
          e = "Theme element \"" ++ p.1 ++ "\" cannot be overriden") ∧
      (∀ k v, k ∈ allowedKeys →
        ∃ cfg2, theme_override cfg [(k, v)] = Except.ok cfg2 ∧
          themeGet cfg2.theme k = some v) := by
  intro cfg ov
  refine ⟨?_, ?_, ?_⟩
  · rw [← themeOverrideGo_ok_iff ov cfg.theme]
    unfold theme_override
    constructor
    · rintro ⟨cfg2, h⟩
      cases hgo : themeOverrideGo cfg.theme ov with
      | ok th2 => exact ⟨th2, rfl⟩
      | error e => rw [hgo] at h; cases h
    · rintro ⟨th2, h⟩
      rw [h]
      exact ⟨_, rfl⟩
  · intro e h
    unfold theme_override at h
    cases hgo : themeOverrideGo cfg.theme ov with
    | ok th2 => rw [hgo] at h; cases h
    | error e2 => rw [hgo] at h; cases h; exact themeOverrideGo_err ov cfg.theme _ hgo
  · intro k v hk
    cases hap : applyOverride cfg.theme k v with
    | none =>
      have := (applyOverride_isSome cfg.theme k v).mpr hk
      rw [hap] at this
      cases this
    | some th2 =>
      refine ⟨{ cfg with theme := th2 }, ?_, applyOverride_themeGet _ _ _ _ hap⟩
      unfold theme_override
      rw [show themeOverrideGo cfg.theme [(k, v)] = Except.ok th2 from by
        rw [themeOverrideGo, hap]; rfl]
      rfl

/-- C8 witness: overriding `idle_fg` on the default theme succeeds and sets
the field. -/
theorem theme_override_allow_list_witness :
    ∃ cfg2, theme_override ⟨{}⟩ [("idle_fg", "#123456")] = Except.ok cfg2 ∧
      themeGet cfg2.theme "idle_fg" = some "#123456" :=
  (theme_override_allow_list ⟨{}⟩ []).2.2 "idle_fg" "#123456" (by decide)

/-! ## Compositor (src/util.rs: print_blocks) -/

/-- Modelled from the spec: the widget wire record `I3BlockData` (defined in
the repository's `widgets/i3block_data.rs`, not under `src/`); §3/§6 of the
spec: full text, optional foreground color, optional background color,
optional separator flag, optional separator width; `Default` gives the empty
record. Its serialization `render()` is likewise outside `src/`, so the
compositor below is parameterized over it. -/
structure I3BlockData where
  full_text : String := ""
  color : Option String := none
  background : Option String := none
  separator : Option Bool := none
  separator_block_width : Option Nat := none
  deriving DecidableEq

/-- The tint step of `print_blocks` (src/util.rs:195-207): add the theme's
alternating tint onto the widget's background and foreground; the source
calls `.unwrap()` on both `add_colors` results, so a parse failure is a
panic (`none`). -/
def tintWidget (theme : Theme) (w : I3BlockData) : Option I3BlockData := do
  let bg ← add_colors w.background theme.alternating_tint_bg
  let fg ← add_colors w.color theme.alternating_tint_bg
  pure { w with background := bg, color := fg }

/-- `rendered_widgets.last_mut().unwrap().separator = None; ... = None`
(src/util.rs:214-218): clear the separator fields of the last widget. -/
def setLastSep : List I3BlockData → List I3BlockData
  | [] => []
  | [w] => [{ w with separator := none, separator_block_width := none }]
  | w :: rest => w :: setLastSep rest

/-- The body of `print_blocks`' loop for one non-empty block
(src/util.rs:191-269): tint when the alternator flag is set, serialize the
widgets (via the externally supplied `render`), and except in native-
separator mode prepend a synthesized separator and record the block's last
background. Returns the pushed string and the new `last_bg`. -/
def processBlock (render : I3BlockData → String) (theme : Theme) (alternator : Bool)
    (lastBg : Option String) (widgets : List I3BlockData) :
    Except String (String × Option String) :=
  match (if alternator then widgets.mapM (tintWidget theme) else some widgets) with
  | none => Except.error "panic: add_colors failed"
  | some rendered0 =>
    let rendered := if theme.native_separators = some true then setLastSep rendered0
                    else rendered0
    let blockStr := String.intercalate "," (rendered.map render)
    if theme.native_separators = some true then Except.ok (blockStr, lastBg)
    else
      match rendered.head? with
      | none => Except.error "panic: first on empty block"
      | some firstW =>
        match firstW.background with
        | none => Except.error "couldn't get background color"
        | some firstBg =>
          let sepFg := if theme.separator_fg = some "auto" then some firstBg
                       else theme.separator_fg
          let sepBg := if theme.separator_bg = some "auto" then lastBg
                       else theme.separator_bg
          let sep : I3BlockData :=
            { full_text := theme.separator, background := sepBg, color := sepFg }
          match rendered.getLast? with
          | none => Except.error "panic: last on empty block"
          | some lastW =>
            match lastW.background with
            | none => Except.error "couldn't get background color"
            | some lastWBg =>
              Except.ok (render sep ++ "," ++ blockStr, some lastWBg)

/-- `visible_count` (src/util.rs:178-181): blocks whose widget list is
non-empty. -/
def visibleCount (blocks : List (List I3BlockData)) : Nat :=
  (blocks.filter (fun b => !b.isEmpty)).length

/-- The loop of `print_blocks` (src/util.rs:185-270), carrying the rendered
strings, the alternator flag (toggled once per visible block) and `last_bg`;
empty blocks are skipped. -/
def printBlocksGo (render : I3BlockData → String) (theme : Theme) :
    Bool → Option String → List (List I3BlockData) →
    Except String (List String × Bool × Option String)
  | alt, lastBg, [] => Except.ok ([], alt, lastBg)
  | alt, lastBg, widgets :: rest =>
    if widgets.isEmpty then printBlocksGo render theme alt lastBg rest
    else
      (processBlock render theme alt lastBg widgets).bind fun p =>
        (printBlocksGo render theme (!alt) p.2 rest).map
          (fun r => (p.1 :: r.1, r.2.1, r.2.2))

/-- Embedding of `print_blocks` (src/util.rs:168-275): the alternator starts
at `visible_count is even`, and the final line is the rendered block strings
joined with commas, wrapped in brackets, with a trailing comma. -/
def print_blocks (render : I3BlockData → String) (cfg : SharedConfig)
    (blocks : List (List I3BlockData)) : Except String String :=
  (printBlocksGo render cfg.theme (decide (visibleCount blocks % 2 = 0)) none blocks).map
    (fun r => "[" ++ String.intercalate "," r.1 ++ "],")

/-! ## Compositor lemmas and claims C4, C9 -/

theorem printBlocksGo_append (render : I3BlockData → String) (theme : Theme) :
    ∀ (xs ys : List (List I3BlockData)) (alt : Bool) (lastBg : Option String),
      printBlocksGo render theme alt lastBg (xs ++ ys) =
        (printBlocksGo render theme alt lastBg xs).bind
          (fun r => (printBlocksGo render theme r.2.1 r.2.2 ys).map
            (fun r2 => (r.1 ++ r2.1, r2.2.1, r2.2.2))) := by
  intro xs
  induction xs with
  | nil =>
    intro ys alt lastBg
    simp only [List.nil_append, printBlocksGo]
    cases h : printBlocksGo render theme alt lastBg ys <;>
      simp [Except.bind, Except.map, h]
  | cons w rest ih =>
    intro ys alt lastBg
    by_cases hw : w.isEmpty
    · simpa [printBlocksGo, hw] using ih ys alt lastBg
    · simp only [List.cons_append, printBlocksGo, hw, Bool.false_eq_true, not_false_iff,
        ite_false, List.append_eq]
      cases hp : processBlock render theme alt lastBg w with
      | error e => simp [Except.bind]
      | ok p =>
        simp only [Except.bind, Except.map]
        rw [ih ys (!alt) p.2]
        cases hgo : printBlocksGo render theme (!alt) p.2 rest with
        | error e => simp [Except.bind, Except.map, hgo]
        | ok r2 =>
          cases hgo2 : printBlocksGo render theme r2.2.1 r2.2.2 ys with
          | error e2 => simp [Except.bind, Except.map, hgo, hgo2]
          | ok r3 => simp [Except.bind, Except.map, hgo, hgo2]

theorem printBlocksGo_parity (render : I3BlockData → String) (theme : Theme) :
    ∀ (xs : List (List I3BlockData)) (alt : Bool) (lastBg : Option String)
      (l : List String) (f : Bool) (bg : Option String),
      printBlocksGo render theme alt lastBg xs = Except.ok (l, f, bg) →
      f = Bool.xor alt (decide (visibleCount xs % 2 = 1)) := by
  intro xs
  induction xs with
  | nil =>
    intro alt lastBg l f bg h
    cases h
    simp [visibleCount]
  | cons w rest ih =>
    intro alt lastBg l f bg h
    by_cases hw : w.isEmpty
    · rw [printBlocksGo, if_pos hw] at h
      have hvc : visibleCount (w :: rest) = visibleCount rest := by
        simp [visibleCount, List.filter, hw]
      rw [hvc]
      exact ih alt lastBg l f bg h
    · rw [printBlocksGo, if_neg hw] at h
      cases hp : processBlock render theme alt lastBg w with
      | error e => rw [hp] at h; cases h
      | ok p =>
        rw [hp] at h
        cases hgo : printBlocksGo render theme (!alt) p.2 rest with
        | error e =>
          rw [show (Except.ok p).bind (fun p =>
              (printBlocksGo render theme (!alt) p.2 rest).map
                (fun r => (p.1 :: r.1, r.2.1, r.2.2))) =
              (printBlocksGo render theme (!alt) p.2 rest).map
                (fun r => (p.1 :: r.1, r.2.1, r.2.2)) from rfl, hgo] at h
          cases h
        | ok r2 =>
          rw [show (Except.ok p).bind (fun p =>
              (printBlocksGo render theme (!alt) p.2 rest).map
                (fun r => (p.1 :: r.1, r.2.1, r.2.2))) =
              (printBlocksGo render theme (!alt) p.2 rest).map
                (fun r => (p.1 :: r.1, r.2.1, r.2.2)) from rfl, hgo] at h
          cases h
          have hrec := ih (!alt) p.2 r2.1 r2.2.1 r2.2.2 hgo
          have hvc : visibleCount (w :: rest) = visibleCount rest + 1 := by
            simp [visibleCount, List.filter, hw]
          rw [hrec, hvc]
          cases alt <;> rcases Nat.even_or_odd (visibleCount rest) with he | ho <;>
            simp_all [Nat.even_iff, Nat.odd_iff] <;> omega

theorem printBlocksGo_all_empty (render : I3BlockData → String) (theme : Theme) :
    ∀ (bs : List (List I3BlockData)) (alt : Bool) (lastBg : Option String),
      (∀ b ∈ bs, b = []) → printBlocksGo render theme alt lastBg bs =
        Except.ok ([], alt, lastBg) := by
  intro bs
  induction bs with
  | nil => intros; rfl
  | cons w rest ih =>
    intro alt lastBg h
    have hw : w.isEmpty = true := by
      rw [h w (List.mem_cons_self _ _)]
      rfl
    rw [printBlocksGo, if_pos hw]
    exact ih alt lastBg (fun b hb => h b (List.mem_cons_of_mem _ hb))

theorem visibleCount_all_empty : ∀ (post : List (List I3BlockData)),
    (∀ x ∈ post, x = []) → visibleCount post = 0
  | [], _ => rfl
  | w :: rest, h => by
    have hw : w.isEmpty = true := by
      rw [h w (List.mem_cons_self _ _)]
      rfl
    have ih := visibleCount_all_empty rest (fun b hb => h b (List.mem_cons_of_mem _ hb))
    simp [visibleCount, List.filter_cons, hw] at ih ⊢
    exact ih

/-- C4: in a run of the compositor on `pre ++ b :: post` where `b` is the
last visible block (non-empty, with only empty blocks after it), the
alternator flag reaching `b` - the state produced by the loop over `pre`
from the initial flag `visible_count is even` - is `false`, so `b` is never
tinted; and the full run processes `b` exactly at that state. -/
theorem print_blocks_last_untinted :
    ∀ (render : I3BlockData → String) (cfg : SharedConfig)
      (pre post : List (List I3BlockData)) (b : List I3BlockData)
      (l : List String) (f : Bool) (bg : Option String),
      b ≠ [] → (∀ x ∈ post, x = []) →
      printBlocksGo render cfg.theme (decide (visibleCount (pre ++ b :: post) % 2 = 0)) none pre
        = Except.ok (l, f, bg) →
      f = false ∧
      printBlocksGo render cfg.theme (decide (visibleCount (pre ++ b :: post) % 2 = 0)) none
          (pre ++ b :: post) =
        (printBlocksGo render cfg.theme f bg (b :: post)).map
          (fun r2 => (l ++ r2.1, r2.2.1, r2.2.2)) := by
  intro render cfg pre post b l f bg hb hpost h
  have hbne : b.isEmpty = false := by
    cases b with
    | nil => exact absurd rfl hb
    | cons x xs => rfl
  have hvcpost := visibleCount_all_empty post hpost
  have hvc : visibleCount (pre ++ b :: post) = visibleCount pre + 1 := by
    have h1 : visibleCount (pre ++ b :: post) =
        visibleCount pre + visibleCount (b :: post) := by
      simp [visibleCount, List.filter_append]
    have h2 : visibleCount (b :: post) = 1 := by
      simp only [visibleCount]
      simp [List.filter_cons, hbne]
      exact hpost
    omega
  have hpar := printBlocksGo_parity render cfg.theme pre _ none l f bg h
  refine ⟨?_, ?_⟩
  · rw [hpar, hvc]
    have hiff : ((visibleCount pre + 1) % 2 = 0) ↔ (visibleCount pre % 2 = 1) := by omega
    rw [decide_eq_decide.mpr hiff]
    exact Bool.xor_self _
  · rw [printBlocksGo_append, h]
    simp [Except.bind]

/-- C4 witness: a single visible block is processed with the alternator
flag off. -/
theorem print_blocks_last_untinted_witness :
    false = false ∧
    printBlocksGo (fun _ => "") (SharedConfig.mk {}).theme
        (decide (visibleCount (([] : List (List I3BlockData)) ++
          [({} : I3BlockData)] :: []) % 2 = 0)) none
        (([] : List (List I3BlockData)) ++ [({} : I3BlockData)] :: []) =
      (printBlocksGo (fun _ => "") (SharedConfig.mk {}).theme false none
          ([({} : I3BlockData)] :: [])).map
        (fun r2 => (([] : List String) ++ r2.1, r2.2.1, r2.2.2)) :=
  print_blocks_last_untinted (fun _ => "") ⟨{}⟩ [] [] [({} : I3BlockData)] [] false none
    (by simp) (by simp) rfl

/-- C9: the compositor's output is always the per-block strings joined with
commas, wrapped in brackets, with a trailing comma; with zero visible blocks
it is exactly the string holding an opening bracket, a closing bracket and a
comma. -/
theorem print_blocks_wire_format :
    ∀ (render : I3BlockData → String) (cfg : SharedConfig)
      (blocks : List (List I3BlockData)),
      ((∀ b ∈ blocks, b = []) → print_blocks render cfg blocks = Except.ok "[],") ∧
      (∀ s, print_blocks render cfg blocks = Except.ok s →
        ∃ parts, s = "[" ++ String.intercalate "," parts ++ "],") := by
  intro render cfg blocks
  constructor
  · intro hall
    unfold print_blocks
    rw [printBlocksGo_all_empty render cfg.theme blocks _ none hall]
    rfl
  · intro s h
    unfold print_blocks at h
    cases hgo : printBlocksGo render cfg.theme
        (decide (visibleCount blocks % 2 = 0)) none blocks with
    | error e => rw [hgo] at h; cases h
    | ok r =>
      rw [hgo] at h
      cases h
      exact ⟨r.1, rfl⟩

/-- C9 witness: two blocks with empty widget lists compose to `"[],"`. -/
theorem print_blocks_wire_format_witness :
    print_blocks (fun _ => "") ⟨{}⟩ [[], []] = Except.ok "[]," :=
  (print_blocks_wire_format (fun _ => "") ⟨{}⟩ [[], []]).1 (by simp)

/-! ## Bar graphs (src/util.rs: format_vec_to_bar_graph, format_percent_bar) -/

/-- Model of an `f64` value: a finite rational, an infinity, or NaN. Finite
arithmetic is exact (rounding and subnormal magnitudes are not modelled; the
inputs of interest are small decimals where `f64` and ℚ agree). -/
inductive F
  | fin (q : ℚ)
  | pinf
  | ninf
  | nan
  deriving DecidableEq

/-- `f64` `<` : false on NaN, infinities ordered around the finite values. -/
def fLt : F → F → Bool
  | F.nan, _ => false
  | _, F.nan => false
  | F.fin a, F.fin b => decide (a < b)
  | F.fin _, F.pinf => true
  | F.fin _, F.ninf => false
  | F.pinf, _ => false
  | F.ninf, F.ninf => false
  | F.ninf, _ => true

/-- `f64` subtraction: NaN propagates, same-sign infinities give NaN. -/
def fSub : F → F → F
  | F.nan, _ => F.nan
  | _, F.nan => F.nan
  | F.fin a, F.fin b => F.fin (a - b)
  | F.pinf, F.pinf => F.nan
  | F.pinf, _ => F.pinf
  | F.ninf, F.ninf => F.nan
  | F.ninf, _ => F.ninf
  | F.fin _, F.pinf => F.ninf
  | F.fin _, F.ninf => F.pinf

/-- `f64` multiplication (used with the constant 7.0). -/
def fMul : F → F → F
  | F.nan, _ => F.nan
  | _, F.nan => F.nan
  | F.fin a, F.fin b => F.fin (a * b)
  | F.pinf, F.pinf => F.pinf
  | F.pinf, F.ninf => F.ninf
  | F.ninf, F.pinf => F.ninf
  | F.ninf, F.ninf => F.pinf
  | F.fin a, F.pinf => if a = 0 then F.nan else if 0 < a then F.pinf else F.ninf
  | F.fin a, F.ninf => if a = 0 then F.nan else if 0 < a then F.ninf else F.pinf
  | F.pinf, F.fin b => if b = 0 then F.nan else if 0 < b then F.pinf else F.ninf
  | F.ninf, F.fin b => if b = 0 then F.nan else if 0 < b then F.ninf else F.pinf

/-- `f64` division (the divisor in the normal branch is never zero, NaN or
infinite, since `is_normal` held for it). -/
def fDiv : F → F → F
  | F.nan, _ => F.nan
  | _, F.nan => F.nan
  | F.fin a, F.fin b =>
    if b = 0 then (if a = 0 then F.nan else if 0 < a then F.pinf else F.ninf)
    else F.fin (a / b)
  | F.fin _, F.pinf => F.fin 0
  | F.fin _, F.ninf => F.fin 0
  | F.pinf, F.pinf => F.nan
  | F.pinf, F.ninf => F.nan
  | F.ninf, F.pinf => F.nan
  | F.ninf, F.ninf => F.nan
  | F.pinf, F.fin b => if b < 0 then F.ninf else F.pinf
  | F.ninf, F.fin b => if b < 0 then F.pinf else F.ninf

/-- `f64::is_normal`: false for NaN, infinities and zero (subnormal
magnitudes are below the ℚ model's resolution of interest). -/
def fIsNormal : F → Bool
  | F.fin q => decide (q ≠ 0)
  | _ => false

/-- `f64::clamp(lo, hi)`: NaN input stays NaN. -/
def fClamp (x lo hi : F) : F :=
  if fLt x lo then lo else if fLt hi x then hi else x

/-- `as usize`: saturating cast; NaN casts to 0, negative values to 0,
`+inf` to `usize::MAX`. -/
def fToNat : F → Nat
  | F.fin q => if q < 0 then 0 else min (Int.toNat ⌊q⌋) (2 ^ 64 - 1)
  | F.pinf => 2 ^ 64 - 1
  | F.ninf => 0
  | F.nan => 0

/-- The eight eighth-block glyphs (src/util.rs:349-352). -/
def BARS : List Char :=
  ['▁', '▂', '▃', '▄', '▅', '▆', '▇', '█']

/-- The effective lower bound of `format_vec_to_bar_graph`: caller-supplied,
or the running minimum starting from `+inf` (src/util.rs:354-366). -/
def barGraphLo (content : List F) (mn : Option F) : F :=
  mn.getD (content.foldl (fun acc v => if fLt v acc then v else acc) F.pinf)

/-- The effective upper bound: caller-supplied, or the running maximum
starting from `-inf` (src/util.rs:354-367). -/
def barGraphHi (content : List F) (mx : Option F) : F :=
  mx.getD (content.foldl (fun acc v => if fLt acc v then v else acc) F.ninf)

/-- `extant = max - min` (src/util.rs:368). -/
def barGraphExtant (content : List F) (mn mx : Option F) : F :=
  fSub (barGraphHi content mx) (barGraphLo content mn)

/-- Embedding of `format_vec_to_bar_graph` (src/util.rs:347-378). In the
normal-range branch each sample maps to `BARS[((clamp(x)-min)/extant*7) as
usize]` (an out-of-range index - a panic - is `none`); in the degenerate
branch the code iterates `0..content.len() - 1`: for an empty input the
`usize` subtraction overflows (a panic in debug builds, an absurd
allocation in release builds), embedded as `none`; otherwise it yields one
fewer glyph than there are samples. -/
def format_vec_to_bar_graph (content : List F) (mn mx : Option F) : Option String :=
  let lo := barGraphLo content mn
  let hi := barGraphHi content mx
  let extant := barGraphExtant content mn mx
  if fIsNormal extant then
    (content.mapM (fun x =>
      BARS.get? (fToNat (fMul (fDiv (fSub (fClamp x lo hi) lo) extant) (F.fin 7))))).map
      (fun cs => String.mk cs)
  else if content.length = 0 then none
  else some (String.mk (List.replicate (content.length - 1) '▁'))

/-! ## Bar graph lemmas and claim C1 -/

theorem barGraphExtant_two_ones : barGraphExtant [F.fin 1, F.fin 1] none none = F.fin 0 := by
  have h2 : fLt (F.fin 1) (F.fin 1) = false := by simp [fLt]
  simp [barGraphExtant, barGraphLo, barGraphHi, List.foldl, h2, fSub,
    show fLt (F.fin 1) F.pinf = true from rfl, show fLt F.ninf (F.fin 1) = true from rfl]

/-- C1 (amended): on every non-empty sample sequence whose effective range
is degenerate (not a normal non-zero finite quantity - in particular
whenever min = max), `format_vec_to_bar_graph` returns one fewer glyph than
there are samples, every one of them the emptiest glyph; on the empty
sequence the `0..len-1` iteration underflows (no string is returned). -/
theorem sample_bar_degenerate (content : List F) (mn mx : Option F)
    (hne : content ≠ []) (hdeg : fIsNormal (barGraphExtant content mn mx) = false) :
    format_vec_to_bar_graph content mn mx =
      some (String.mk (List.replicate (content.length - 1) '▁')) := by
  unfold format_vec_to_bar_graph
  rw [if_neg (by rw [hdeg]; exact Bool.false_ne_true)]
  rw [if_neg (by simpa using hne)]

/-- C1 counterexample: for the two equal samples `[1.0, 1.0]` (min = max,
degenerate range) the output is a single emptiest glyph, not one glyph per
input sample as the claim states. -/
theorem sample_bar_one_glyph_counterexample :
    format_vec_to_bar_graph [F.fin 1, F.fin 1] none none = some (String.mk ['▁']) ∧
    ¬(∃ s, format_vec_to_bar_graph [F.fin 1, F.fin 1] none none = some s ∧
        s.length = ([F.fin 1, F.fin 1] : List F).length) := by
  have h : format_vec_to_bar_graph [F.fin 1, F.fin 1] none none =
      some (String.mk ['▁']) := by
    unfold format_vec_to_bar_graph
    rw [if_neg (by rw [barGraphExtant_two_ones]; simp [fIsNormal])]
    rfl
  refine ⟨h, ?_⟩
  rintro ⟨s, hs, hlen⟩
  rw [h] at hs
  cases hs
  exact absurd hlen (by decide)

/-- C1 witness: the amended statement at the all-equal sequence
`[1.0, 1.0]`. -/
theorem sample_bar_degenerate_witness :
    format_vec_to_bar_graph [F.fin 1, F.fin 1] none none =
      some (String.mk (List.replicate (([F.fin 1, F.fin 1] : List F).length - 1) '▁')) :=
  sample_bar_degenerate [F.fin 1, F.fin 1] none none (by simp)
    (by rw [barGraphExtant_two_ones]; simp [fIsNormal])

/-! ## Percent bar (src/util.rs: format_percent_bar) and claim C6 -/

/-- The glyph for one bucket: `fraction = percent - bucket_min`, selected by
the ascending thresholds 1.25, 2.5, 3.75, 5, 6.25, 7.5, 8.75
(src/util.rs:324-342); `f32` values are embedded as exact rationals (every
step here - clamping, subtracting a multiple of 10, comparing against
quarter-integer thresholds - is exact in `f32` on [0,100] as well). -/
def percentBarChar (fraction : ℚ) : Char :=
  if fraction < 5/4 then '▁'
  else if fraction < 5/2 then '▂'
  else if fraction < 15/4 then '▃'
  else if fraction < 5 then '▄'
  else if fraction < 25/4 then '▅'
  else if fraction < 15/2 then '▆'
  else if fraction < 35/4 then '▇'
  else '█'

/-- One position of the bar: `bucket_min = (index * 10) as f32`
(src/util.rs:323-324). -/
def percentBucketChar (p2 : ℚ) (index : Nat) : Char :=
  percentBarChar (p2 - (index : ℚ) * 10)

/-- Embedding of `format_percent_bar` (src/util.rs:317-345):
`percent.min(100.0).max(0.0)`, then one glyph per bucket `0..10`. -/
def format_percent_bar (percent : ℚ) : String :=
  let p1 := min percent 100
  let p2 := max p1 0
  String.mk ((List.range 10).map (percentBucketChar p2))

/-- The eighth-block index of a bar glyph (0 = emptiest, 7 = full). -/
def eighthIdx (c : Char) : Nat :=
  if c = '▁' then 0 else if c = '▂' then 1 else if c = '▃' then 2
  else if c = '▄' then 3 else if c = '▅' then 4 else if c = '▆' then 5
  else if c = '▇' then 6 else if c = '█' then 7 else 8

set_option maxHeartbeats 1000000 in
theorem percentBarChar_mono {x y : ℚ} (h : x ≤ y) :
    eighthIdx (percentBarChar x) ≤ eighthIdx (percentBarChar y) := by
  unfold percentBarChar
  split_ifs <;> first | decide | linarith

/-- C6: the percent bar always has exactly 10 glyphs, equals the bar of the
input clamped to [0,100], and at every position the glyph's eighth-block
index is monotone in the input percentage. -/
theorem percent_bar_spec :
    ∀ p q : ℚ,
      (format_percent_bar p).length = 10 ∧
      format_percent_bar p = format_percent_bar (max (min p 100) 0) ∧
      (p ≤ q → ∀ (i : Nat) (ci cj : Char),
        (format_percent_bar p).data.get? i = some ci →
        (format_percent_bar q).data.get? i = some cj →
        eighthIdx ci ≤ eighthIdx cj) := by
  intro p q
  refine ⟨?_, ?_, ?_⟩
  · simp [format_percent_bar, String.length]
  · have h1 : min (max (min p 100) 0) 100 = max (min p 100) 0 :=
      min_eq_left (max_le (min_le_right p 100) (by norm_num))
    have h2 : max (max (min p 100) 0) 0 = max (min p 100) 0 :=
      max_eq_left (le_max_right _ 0)
    simp only [format_percent_bar, h1, h2]
  · intro hpq i ci cj hci hcj
    simp only [format_percent_bar, List.get?_map] at hci hcj
    cases hi : (List.range 10).get? i with
    | none => rw [hi] at hci; cases hci
    | some k =>
      rw [hi] at hci hcj
      simp only [Option.map_some'] at hci hcj
      cases hci
      cases hcj
      unfold percentBucketChar
      apply percentBarChar_mono
      have hc : max (min p 100) 0 ≤ max (min q 100) 0 :=
        max_le_max (min_le_min hpq (le_refl (100 : ℚ))) (le_refl 0)
      exact sub_le_sub_right hc _

/-- C6 witness: position 0 at percent 0 is the emptiest glyph, at percent
100 the full glyph, and the indices are ordered. -/
theorem percent_bar_spec_witness :
    (0 : ℚ) ≤ 100 ∧ eighthIdx '▁' ≤ eighthIdx '█' := by
  have hr : List.range 10 = [0,1,2,3,4,5,6,7,8,9] := rfl
  have h1 : (format_percent_bar 0).data.get? 0 = some '▁' := by
    simp only [format_percent_bar, hr, List.map_cons, List.get?]
    norm_num [percentBucketChar, percentBarChar]
  have h2 : (format_percent_bar 100).data.get? 0 = some '█' := by
    simp only [format_percent_bar, hr, List.map_cons, List.get?]
    norm_num [percentBucketChar, percentBarChar]
  exact ⟨by norm_num, (percent_bar_spec 0 100).2.2 (by norm_num) 0 '▁' '█' h1 h2⟩

/-! ## Number formatter (src/util.rs: format_number) and claim C7 -/

/-- `min_suffix` to minimum exponent level (src/util.rs:41-51). -/
def minExpLevel (minSuffix : String) : Int :=
  if minSuffix = "T" then 4 else if minSuffix = "G" then 3
  else if minSuffix = "M" then 2 else if minSuffix = "K" then 1
  else if minSuffix = "1" then 0 else if minSuffix = "m" then -1
  else if minSuffix = "u" then -2 else if minSuffix = "n" then -3 else -4

/-- exponent level to suffix (src/util.rs:56-66). -/
def suffixOf (e : Int) : String :=
  if e = 4 then "T" else if e = 3 then "G" else if e = 2 then "M"
  else if e = 1 then "K" else if e = 0 then "" else if e = -1 then "m"
  else if e = -2 then "u" else if e = -3 then "n" else "p"

/-- `(raw_value.log10().div_euclid(3.) as i32).clamp(min_exp_level, 4)`
(src/util.rs:53). For positive finite input,
`floor(log10(x) / 3) = (Int.log 10 x).fdiv 3` exactly (the floor of a real
divided by a positive integer equals the floor of its floor divided by it),
and `x.clamp(lo, 4)` with `lo ≤ 4` is `min (max x lo) 4`. -/
def fnExpLevel (rawValue : ℚ) (minSuffix : String) : Int :=
  min (max ((Int.log 10 rawValue).fdiv 3) (minExpLevel minSuffix)) 4

/-- Round to the nearest integer, ties to even - how Rust's `{:.*}`
formatting rounds the exact value at the requested precision. -/
def roundHalfEven (x : ℚ) : Int :=
  if x - ⌊x⌋ < 1/2 then ⌊x⌋
  else if 1/2 < x - ⌊x⌋ then ⌊x⌋ + 1
  else if ⌊x⌋ % 2 = 0 then ⌊x⌋ else ⌊x⌋ + 1

/-- Left-pad a digit string with zeros to `d` digits. -/
def padZeros (d : Nat) (s : String) : String :=
  String.mk (List.replicate (d - s.length) '0') ++ s

/-- Digits of a rounded scaled value, with the decimal point reinserted
before the last `d` digits. -/
def fdString (n : Int) (d : Nat) : String :=
  (if n < 0 then "-" else "") ++
  (if d = 0 then toString n.natAbs
   else toString (n.natAbs / 10 ^ d) ++ "." ++ padZeros d (toString (n.natAbs % 10 ^ d)))

/-- `format!("{:.*}", d, x)`: `x` printed with exactly `d` decimals. -/
def formatDecimals (x : ℚ) (d : Nat) : String :=
  fdString (roundHalfEven (x * (10:ℚ) ^ d)) d

/-- The decimal count (src/util.rs:68-76): `total_digits` minus 3/2/1 by
magnitude, floored at zero (`.max(0)` then `as usize` = `Int.toNat`). -/
def fnDecimals (value : ℚ) (totalDigits : Nat) : Nat :=
  (if 100 ≤ value then (totalDigits : Int) - 3
   else if 10 ≤ value then (totalDigits : Int) - 2
   else (totalDigits : Int) - 1).toNat

/-- Embedding of `format_number` (src/util.rs:40-79):
`value = raw_value / 10^(exp_level * 3)`, then the decimals, suffix and
unit. -/
def format_number (rawValue : ℚ) (totalDigits : Nat) (minSuffix unit : String) : String :=
  formatDecimals (rawValue / (10:ℚ) ^ (fnExpLevel rawValue minSuffix * 3))
      (fnDecimals (rawValue / (10:ℚ) ^ (fnExpLevel rawValue minSuffix * 3)) totalDigits)
    ++ suffixOf (fnExpLevel rawValue minSuffix) ++ unit

theorem int_log_eq {n : ℤ} {r : ℚ} (hr : 0 < r) (h1 : (10:ℚ)^n ≤ r) (h2 : r < (10:ℚ)^(n+1)) :
    Int.log 10 r = n := by
  have hb : 1 < 10 := by norm_num
  have l1 : n ≤ Int.log 10 r := (Int.zpow_le_iff_le_log hb hr).mp h1
  have l2 : Int.log 10 r < n + 1 := (Int.lt_zpow_iff_log_lt hb hr).mp h2
  omega

/-- C7: the three concrete equations of the spec:
`format_number 1.0 3 "" "s" = "1.00s"`,
`format_number 1007.0 3 "K" "s" = "1.01Ks"`,
`format_number 0.000123123 3 "" "N" = "123uN"`. -/
theorem format_number_examples :
    format_number 1 3 "" "s" = "1.00s" ∧
    format_number 1007 3 "K" "s" = "1.01Ks" ∧
    format_number (123123/1000000000) 3 "" "N" = "123uN" := by
  refine ⟨?_, ?_, ?_⟩
  · have hlog : Int.log 10 (1:ℚ) = 0 := Int.log_one_right 10
    have hexp : fnExpLevel 1 "" = 0 := by
      unfold fnExpLevel
      rw [hlog]
      decide
    unfold format_number
    rw [hexp]
    have hv : (1 : ℚ) / (10:ℚ) ^ ((0:ℤ) * 3) = 1 := by norm_num
    rw [hv]
    have hdec : fnDecimals (1 : ℚ) 3 = 2 := by
      unfold fnDecimals
      rw [if_neg (by norm_num), if_neg (by norm_num)]
      rfl
    rw [hdec]
    have hrnd : roundHalfEven ((1 : ℚ) * (10:ℚ) ^ (2:ℕ)) = 100 := by
      have hx : (1 : ℚ) * (10:ℚ) ^ (2:ℕ) = 100 := by norm_num
      unfold roundHalfEven
      rw [hx]
      have hfl : ⌊(100 : ℚ)⌋ = 100 := by
        rw [Int.floor_eq_iff]
        norm_num
      rw [hfl]
      rw [if_pos (by norm_num)]
    unfold formatDecimals
    rw [hrnd]
    rfl
  · have hlog : Int.log 10 (1007:ℚ) = 3 :=
      int_log_eq (by norm_num) (by norm_num) (by norm_num)
    have hexp : fnExpLevel 1007 "K" = 1 := by
      unfold fnExpLevel
      rw [hlog]
      decide
    unfold format_number
    rw [hexp]
    have hv : (1007 : ℚ) / (10:ℚ) ^ ((1:ℤ) * 3) = 1007/1000 := by norm_num
    rw [hv]
    have hdec : fnDecimals (1007/1000 : ℚ) 3 = 2 := by
      unfold fnDecimals
      rw [if_neg (by norm_num), if_neg (by norm_num)]
      rfl
    rw [hdec]
    have hrnd : roundHalfEven ((1007/1000 : ℚ) * (10:ℚ) ^ (2:ℕ)) = 101 := by
      have hx : (1007/1000 : ℚ) * (10:ℚ) ^ (2:ℕ) = 1007/10 := by norm_num
      unfold roundHalfEven
      rw [hx]
      have hfl : ⌊(1007/10 : ℚ)⌋ = 100 := by
        rw [Int.floor_eq_iff]
        norm_num
      rw [hfl]
      rw [if_neg (by norm_num), if_pos (by norm_num)]
      decide
    unfold formatDecimals
    rw [hrnd]
    rfl
  · have hlog : Int.log 10 (123123/1000000000 : ℚ) = -4 :=
      int_log_eq (by norm_num) (by norm_num) (by norm_num)
    have hexp : fnExpLevel (123123/1000000000 : ℚ) "" = -2 := by
      unfold fnExpLevel
      rw [hlog]
      decide
    unfold format_number
    rw [hexp]
    have hv : (123123/1000000000 : ℚ) / (10:ℚ) ^ ((-2:ℤ) * 3) = 123123/1000 := by norm_num
    rw [hv]
    have hdec : fnDecimals (123123/1000 : ℚ) 3 = 0 := by
      unfold fnDecimals
      rw [if_pos (by norm_num)]
      rfl
    rw [hdec]
    have hrnd : roundHalfEven ((123123/1000 : ℚ) * (10:ℚ) ^ (0:ℕ)) = 123 := by
      have hx : (123123/1000 : ℚ) * (10:ℚ) ^ (0:ℕ) = 123123/1000 := by norm_num
      unfold roundHalfEven
      rw [hx]
      have hfl : ⌊(123123/1000 : ℚ)⌋ = 123 := by
        rw [Int.floor_eq_iff]
        norm_num
      rw [hfl]
      rw [if_pos (by norm_num)]
    unfold formatDecimals
    rw [hrnd]
    rfl
